import Mathlib

/-!
Verification of ralph-tui against its specification.

This file gives a shallow embedding of the parts of the repository that the
claims refer to:

* `src/src/remote/client.ts` — the `RemoteClient` WebSocket client: its
  connection status, pending-request map, message handling, cleanup and the
  send/request guards.  Asynchronous behaviour (promise settlement, timer
  firings, socket events) is modelled as a step function over an explicit
  event alphabet; the JS runtime delivers these events sequentially, so a
  trace of events faithfully represents one execution.
* `src/src/plugins/agents/builtin/kimi.ts` — the `KimiAgentPlugin`:
  `detect`/`runVersion` (modelled as total functions over the possible
  subprocess outcomes) and the JSONL parsers
  (`parseJsonlLine`, `parseJsonlOutput`, `createStreamingJsonlParser`).
* `src/src/plugins/trackers/builtin/beads-rust/index.ts` —
  `BeadsRustTrackerPlugin.completeTask`.
* The Backoff Controller / rate-limit retry policy of the execution engine.
  The engine source is not present under `src/` (only the PRD
  `tasks/prd-rate-limit-fallback.md` and the spec describe it), so those
  definitions are modelled from the spec and marked as such.
-/

/- ============================================================ -/
/- RemoteClient model (src/src/remote/client.ts)                -/
/- ============================================================ -/

/-- Connection status of `RemoteClient` (client.ts line 37). -/
inductive ConnectionStatus where
  | disconnected
  | connecting
  | connected
deriving DecidableEq

/-- Engine events are opaque payloads for the client; a string stands in for
the serialized event. -/
abbrev EngineEvent := String

/-- A WebSocket message as seen by `RemoteClient.handleMessage`: the base
`WSMessage` fields (`type`, `id`) plus the fields the client inspects on
specific message types (`success`/`error` of `auth_response`, `event` of
`engine_event`). -/
structure WSMessage where
  type : String
  id : String
  success : Bool := true
  error : Option String := none
  event : EngineEvent := ""
deriving DecidableEq

/-- Events delivered to the client's `eventHandler`
(`RemoteClientEvent`, client.ts lines 71-76). -/
inductive RemoteClientEvent where
  | connecting
  | connected
  | disconnected (error : Option String)
  | message (m : WSMessage)
  | engineEvent (e : EngineEvent)
deriving DecidableEq

/-- How a pending request promise is settled. -/
inductive SettleKind where
  | resolved (m : WSMessage)
  | rejectedTimeout
  | rejectedClosed
deriving DecidableEq

/-- A settlement of the request promise registered under an id. -/
abbrev Settlement := String × SettleKind

/-- The mutable fields of `RemoteClient` that the claims are about.
`wsOpen` models `this.ws !== null`; `pending` models the key set of the
`pendingRequests` map (a key occurs at most once in a JS `Map`);
`pingActive` models `this.pingInterval !== null`. -/
structure ClientState where
  status : ConnectionStatus := .disconnected
  wsOpen : Bool := false
  pending : List String := []
  subscribed : Bool := false
  pingActive : Bool := false
deriving DecidableEq

/-- Insert a key into the pending map, JS `Map.set` key semantics:
re-inserting an existing key does not duplicate it. -/
def pendingInsert (id : String) (l : List String) : List String :=
  if id ∈ l then l else id :: l

/-- `RemoteClient.cleanup` (client.ts lines 493-514): stop the ping interval,
reject every pending request with a `Connection closed` error and empty the
map, clear the subscribed flag, drop the socket.  Returns the new state and
the settlements performed. -/
def cleanup (s : ClientState) : ClientState × List Settlement :=
  ({ s with pingActive := false, pending := [], subscribed := false, wsOpen := false },
   s.pending.map fun i => (i, SettleKind.rejectedClosed))

/-- Output of one client step: new state, messages transmitted on the socket,
request-promise settlements, events delivered to the event handler. -/
inductive Tx where
  | auth
  | payload (m : WSMessage)
  | ping
deriving DecidableEq

structure StepOut where
  state : ClientState
  txs : List Tx := []
  settles : List Settlement := []
  events : List RemoteClientEvent := []

/-- `RemoteClient.disconnect` (client.ts lines 186-190): cleanup, set status
to `disconnected`, emit a `disconnected` event. -/
def disconnect (s : ClientState) : StepOut :=
  let c := cleanup s
  ⟨{ c.1 with status := .disconnected }, [], c.2, [.disconnected none]⟩

/-- `RemoteClient.handleMessage` (client.ts lines 217-265).  A message whose
id is a pending-request key resolves that request (clearing its timer and
deleting the key) and nothing else; otherwise the message is dispatched on
its type: `auth_response` success connects and starts the ping interval,
`auth_response` failure disconnects and cleans up, `pong` is dropped,
`engine_event` is forwarded to the event handler as an `engine_event` client
event, and anything else is forwarded as a generic `message` event. -/
def handleMessage (s : ClientState) (m : WSMessage) :
    ClientState × List Settlement × List RemoteClientEvent :=
  if m.id ∈ s.pending then
    ({ s with pending := s.pending.erase m.id }, [(m.id, SettleKind.resolved m)], [])
  else if m.type = "auth_response" then
    if m.success then
      ({ s with status := .connected, pingActive := true }, [], [.connected])
    else
      let c := cleanup { s with status := .disconnected }
      (c.1, c.2, [.disconnected (some (m.error.getD "Authentication failed"))])
  else if m.type = "pong" then
    (s, [], [])
  else if m.type = "engine_event" then
    (s, [], [.engineEvent m.event])
  else
    (s, [], [.message m])

/-- `RemoteClient.send` (client.ts lines 195-199): transmit only when the
socket exists and status is `connected`; otherwise a no-op. -/
def send (s : ClientState) (m : WSMessage) : Option Tx :=
  if s.wsOpen = true ∧ s.status = .connected then some (.payload m) else none

/-- `RemoteClient.request` (client.ts lines 275-296): throw `Not connected`
unless status is `connected` and the socket exists; otherwise generate a
fresh id, register a pending entry under it and transmit the full message
carrying that id. -/
def request (s : ClientState) (id : String) (m : WSMessage) :
    Except String (ClientState × Tx) :=
  if s.status ≠ .connected ∨ s.wsOpen = false then .error "Not connected"
  else .ok ({ s with pending := pendingInsert id s.pending }, .payload { m with id := id })

/-- `RemoteClient.connect` (client.ts lines 135-146, the part executed
synchronously): return immediately when already connecting or connected;
otherwise move to `connecting`, emit a `connecting` event and create the
socket. -/
def connect (s : ClientState) : ClientState × List RemoteClientEvent :=
  if s.status = .connecting ∨ s.status = .connected then (s, [])
  else ({ s with status := .connecting, wsOpen := true }, [.connecting])

/-- The event alphabet of one client execution: socket callbacks (`open`,
`message`, `close`, `error`), request timers firing, the ping timer ticking,
and the public methods being called.  `callRequest` carries the id that
`crypto.randomUUID()` generated for that call. -/
inductive CEvent where
  | openEvt
  | recv (m : WSMessage)
  | closeEvt
  | errorEvt
  | callSend (m : WSMessage)
  | callRequest (id : String) (m : WSMessage)
  | timeoutFires (id : String)
  | callDisconnect
  | callConnect
  | pingTick
deriving DecidableEq

/-- One step of the client.  Each case transcribes the corresponding handler
in client.ts: `onopen` sends the auth message (line 148 / `authenticate`,
lines 204-212); `onmessage` runs `handleMessage`; `onclose` runs `cleanup`
and, when the status was `connected`, moves to `disconnected` and emits the
event (lines 167-173); `onerror` only flips the status and emits (lines
161-165); a request timeout deletes the pending entry and rejects with
`Request timeout` (lines 288-291) — the timer can only fire while its entry
is still in the map, since resolution and cleanup both clear the timer;
the ping tick transmits only while connected (lines 468-477). -/
def step (s : ClientState) (e : CEvent) : StepOut :=
  match e with
  | .openEvt => ⟨s, [.auth], [], []⟩
  | .recv m =>
      let r := handleMessage s m
      ⟨r.1, [], r.2.1, r.2.2⟩
  | .closeEvt =>
      let c := cleanup s
      if s.status = .connected then
        ⟨{ c.1 with status := .disconnected }, [], c.2, [.disconnected (some "Connection closed")]⟩
      else ⟨c.1, [], c.2, []⟩
  | .errorEvt => ⟨{ s with status := .disconnected }, [], [], [.disconnected (some "Connection error")]⟩
  | .callSend m =>
      match send s m with
      | some tx => ⟨s, [tx], [], []⟩
      | none => ⟨s, [], [], []⟩
  | .callRequest id m =>
      match request s id m with
      | .ok r => ⟨r.1, [r.2], [], []⟩
      | .error _ => ⟨s, [], [], []⟩
  | .timeoutFires id =>
      if id ∈ s.pending then
        ⟨{ s with pending := s.pending.erase id }, [], [(id, SettleKind.rejectedTimeout)], []⟩
      else ⟨s, [], [], []⟩
  | .callDisconnect => disconnect s
  | .callConnect =>
      let c := connect s
      ⟨c.1, [], [], c.2⟩
  | .pingTick =>
      if s.status = .connected ∧ s.wsOpen = true then ⟨s, [.ping], [], []⟩
      else ⟨s, [], [], []⟩

/-- All settlements performed along a trace of events. -/
def runSettles (s : ClientState) : List CEvent → List Settlement
  | [] => []
  | e :: es => (step s e).settles ++ runSettles (step s e).state es

/-- All socket transmissions performed along a trace of events. -/
def runTxs (s : ClientState) : List CEvent → List Tx
  | [] => []
  | e :: es => (step s e).txs ++ runTxs (step s e).state es

/-- Whether an event is a `request()` call generating the given id. -/
def isReqFor (id : String) : CEvent → Bool
  | .callRequest i _ => decide (i = id)
  | _ => false

/-- Number of `request()` calls generating the given id in a trace. -/
def reqCount (id : String) (t : List CEvent) : Nat := t.countP (isReqFor id)

/-- Number of settlements of the given id. -/
def settleCount (id : String) (l : List Settlement) : Nat :=
  l.countP fun p => decide (p.1 = id)

/-- Number of `open` socket events in a trace. -/
def openCount (t : List CEvent) : Nat :=
  t.countP fun e => match e with | .openEvt => true | _ => false

/-- Number of auth transmissions. -/
def authCount (l : List Tx) : Nat :=
  l.countP fun tx => match tx with | .auth => true | _ => false

/- ============================================================ -/
/- KimiAgentPlugin.detect model (src/src/plugins/agents/builtin/kimi.ts) -/
/- ============================================================ -/

/-- Outcome of `findCommandPath` (kimi.ts lines 141-151): either the binary
was resolved to a path, or it is not in PATH. -/
inductive FindCommandResult where
  | found (path : String)
  | notFound
deriving DecidableEq

/-- The first event that settles the `runVersion` promise (kimi.ts lines
183-233): a spawn `error` event, the process `close` event with its exit
code (`null` when killed by a signal), or the 15-second timeout firing
first.  `resolve` is idempotent in JS, so only the first of these matters. -/
inductive VersionOutcome where
  | errEvent (message : String)
  | closed (code : Option Int) (stdout stderr : String)
  | timedOut
deriving DecidableEq

/-- Render a possibly-null exit code the way a JS template literal does. -/
def codeStr : Option Int → String
  | some n => toString n
  | none => "null"

/-- Take a maximal nonempty run of digits (the behaviour of a greedy `\d+`). -/
def takeDigits (cs : List Char) : Option (List Char × List Char) :=
  match cs.span Char.isDigit with
  | (d, rest) => if d = [] then none else some (d, rest)

/-- Try to match the regex `\d+\.\d+\.\d+` starting at the head of the
input, returning the matched characters.  Since a digit run cannot contain
`.`, greedy matching with no backtracking is exact here. -/
def matchVersionAt (cs : List Char) : Option (List Char) :=
  match takeDigits cs with
  | none => none
  | some (d1, r1) =>
    match r1 with
    | '.' :: r2 =>
      match takeDigits r2 with
      | none => none
      | some (d2, r3) =>
        match r3 with
        | '.' :: r4 =>
          match takeDigits r4 with
          | none => none
          | some (d3, _) => some (d1 ++ '.' :: d2 ++ '.' :: d3)
        | _ => none
    | _ => none

/-- Leftmost match of `\d+\.\d+\.\d+` in a character list, as
`stdout.match(/(\d+\.\d+\.\d+)/)` finds it (kimi.ts line 214). -/
def findVersion : List Char → Option (List Char)
  | [] => none
  | c :: rest =>
    match matchVersionAt (c :: rest) with
    | some v => some v
    | none => findVersion rest

/-- Extract the version number from `--version` stdout (kimi.ts line 214). -/
def extractVersion (stdout : String) : Option String :=
  (findVersion stdout.data).map fun cs => ⟨cs⟩

/-- Result of `runVersion` (kimi.ts line 185). -/
structure VersionResult where
  success : Bool
  version : Option String := none
  error : Option String := none
deriving DecidableEq

/-- `KimiAgentPlugin.runVersion` (kimi.ts lines 183-233) as a function of the
first settling outcome: spawn error → failure with `Failed to execute: …`;
close with code 0 → success with the extracted version; close with any other
code → failure with stderr, or `Exited with code …` when stderr is empty
(JS `stderr || …`); timeout → failure with `Timeout waiting for --version`.
The promise is always resolved, never rejected. -/
def runVersion (out : VersionOutcome) : VersionResult :=
  match out with
  | .errEvent msg => ⟨false, none, some ("Failed to execute: " ++ msg)⟩
  | .closed code stdout stderr =>
    if code = some 0 then ⟨true, extractVersion stdout, none⟩
    else ⟨false, none, some (if stderr = "" then "Exited with code " ++ codeStr code else stderr)⟩
  | .timedOut => ⟨false, none, some "Timeout waiting for --version"⟩

/-- `AgentDetectResult` as used by `KimiAgentPlugin.detect`. -/
structure AgentDetectResult where
  available : Bool
  version : Option String := none
  executablePath : Option String := none
  error : Option String := none
deriving DecidableEq

/-- `KimiAgentPlugin.detect` (kimi.ts lines 137-169): not found in PATH →
unavailable with an install hint; otherwise run `--version` and report
available with the version on success, unavailable with `runVersion`'s error
otherwise.  Every branch returns a result; nothing is thrown. -/
def kimiDetect (find : FindCommandResult) (vout : VersionOutcome) : AgentDetectResult :=
  match find with
  | .notFound =>
    ⟨false, none, none, some "Kimi CLI not found in PATH. Install with: uv tool install kimi-cli"⟩
  | .found p =>
    let v := runVersion vout
    if v.success = true then ⟨true, v.version, some p, none⟩
    else ⟨false, none, some p, v.error⟩

/- ============================================================ -/
/- Beads-rust tracker completeTask                              -/
/- (src/src/plugins/trackers/builtin/beads-rust/index.ts)       -/
/- ============================================================ -/

/-- `TaskCompletionResult` fields used by the beads-rust tracker. -/
structure TaskCompletionResult where
  success : Bool
  message : String
  error : Option String := none
deriving DecidableEq

namespace BeadsRustTrackerPlugin

/-- `BeadsRustTrackerPlugin.completeTask` (index.ts lines 163-169): the
method reads no state and unconditionally returns a failure marked
`Not implemented`. -/
def completeTask (id : String) : TaskCompletionResult :=
  { success := false
    message := "beads-rust tracker is not yet able to close tasks (" ++ id ++ ")"
    error := some "Not implemented" }

end BeadsRustTrackerPlugin

/- ============================================================ -/
/- Backoff Controller and retry policy (modelled from the spec) -/
/- ============================================================ -/

/-- Modelled from the spec: the engine's Backoff Controller is not present
under `src/` (only the PRD `tasks/prd-rate-limit-fallback.md` and the spec
describe it).  The spec's default sequence "5s, 15s, 45s" (stated in §4.2,
§8 and twice in the PRD: US-003 "Exponential backoff: 5s, 15s, 45s" and
FR-3) grows by a factor of 3 per attempt, so the delay for attempt `k`
(1-based) is `base * 3^(k-1)` clamped to `max`.  The formula
`base × 2^(attempt-1)` that the spec also writes contradicts that sequence;
see `backoffDelaySpecFormula` and the counterexample below. -/
def backoffDelay (base maxDelay : Nat) (k : Nat) : Nat :=
  min (base * 3 ^ (k - 1)) maxDelay

/-- The literal delay formula written in the spec ("each delay is
`base × 2^(attempt-1)`, clamped to `max`"; §8 "equals `min(base·2^(k-1),
max)`"), kept separately to compare against the concrete default sequence
the spec also states. -/
def backoffDelaySpecFormula (base maxDelay : Nat) (k : Nat) : Nat :=
  min (base * 2 ^ (k - 1)) maxDelay

/-- The Rate Limit Detector's result record
(`{isRateLimit, message?, retryAfter?}`, spec §4.2 / PRD US-002). -/
structure RateLimitDetection where
  isRateLimit : Bool
  message : Option String := none
  retryAfter : Option Nat := none
deriving DecidableEq

/-- Modelled from the spec: the wait before a retry is the detector's
`retryAfter` when present, otherwise the computed backoff delay for the
attempt ("the engine waits the delay (or the detector's `retryAfter` if
present)", spec §4.2). -/
def retryWait (base maxDelay : Nat) (d : RateLimitDetection) (k : Nat) : Nat :=
  match d.retryAfter with
  | some v => v
  | none => backoffDelay base maxDelay k

/-- What the engine does on a positive rate-limit detection. -/
inductive RateLimitAction where
  | retryAfterWait (delayMs : Nat)
  | invokeFallback
deriving DecidableEq

/-- Modelled from the spec: on a positive detection with `retryCount` prior
retries already performed, the engine retries after the computed wait while
the retry budget lasts, and invokes the Fallback Selector once
`maxRetries` retries have been performed (spec §4.2, PRD US-003/US-004). -/
def onRateLimitDetected (base maxDelay maxRetries : Nat) (d : RateLimitDetection)
    (retryCount : Nat) : RateLimitAction × Nat :=
  if retryCount < maxRetries then
    (.retryAfterWait (retryWait base maxDelay d (retryCount + 1)), retryCount + 1)
  else (.invokeFallback, retryCount)

/-- Modelled from the spec: the actions taken over `n` consecutive positive
detections for the same task and agent, starting from a fresh retry
counter. -/
def runDetections (base maxDelay maxRetries : Nat) (d : RateLimitDetection) :
    Nat → List RateLimitAction × Nat
  | 0 => ([], 0)
  | n + 1 =>
    let r := runDetections base maxDelay maxRetries d n
    let a := onRateLimitDetected base maxDelay maxRetries d r.2
    (r.1 ++ [a.1], a.2)

/-- Count of retry actions in a list of rate-limit actions. -/
def retryActionCount (l : List RateLimitAction) : Nat :=
  l.countP fun a => match a with | .retryAfterWait _ => true | _ => false

/- ============================================================ -/
/- Kimi JSONL parsers (kimi.ts lines 529-681)                   -/
/- ============================================================ -/

/-!
Strings are represented as `List Char` here, so that chunk concatenation and
line splitting can be reasoned about structurally; `String` is definitionally
a `List Char`.  `JSON.parse` followed by the field extraction of
`parseJsonlLine` (kimi.ts lines 540-589) is a pure function of the trimmed
line that either yields a structured `KimiJsonlMessage` or fails; it is a JS
builtin plus deterministic field copying, so it enters the model as the
oracle parameter `parseJson`, identical in the one-shot and the streaming
parser.  Whitespace trimming matches on the ASCII whitespace characters; the
equivalence proof only uses that both parsers apply the same `trimChars`.
-/

/-- ASCII whitespace, as stripped by `String.prototype.trim`. -/
def isJsSpace (c : Char) : Bool :=
  c = ' ' || c = '\t' || c = '\n' || c = '\r'

/-- Trim whitespace from both ends, `line.trim()`. -/
def trimChars (cs : List Char) : List Char :=
  ((cs.dropWhile isJsSpace).reverse.dropWhile isJsSpace).reverse

/-- `KimiJsonlParseResult` (kimi.ts lines 52-54): success carries the parsed
message, failure carries the raw line text. -/
inductive KimiJsonlParseResult (M : Type) where
  | success (message : M)
  | failure (raw : List Char) (error : String)

/-- Accumulated `(messages, fallback)` state shared by `parseJsonlOutput`
and the streaming parser (kimi.ts lines 607-608 and 632-634). -/
structure JsonlAcc (M : Type) where
  messages : List M := []
  fallback : List (List Char) := []

section JsonlParsers

variable {M : Type} (parseJson : List Char → Option M)

/-- `KimiAgentPlugin.parseJsonlLine` (kimi.ts lines 531-598): trim the line;
an empty trimmed line fails with `Empty line`; otherwise `JSON.parse` the
trimmed text and build the message, or fail with the parse error.  On every
failure `raw` is the original line. -/
def parseJsonlLine (line : List Char) : KimiJsonlParseResult M :=
  if trimChars line = [] then .failure line "Empty line"
  else
    match parseJson (trimChars line) with
    | some msg => .success msg
    | none => .failure line "Parse error"

/-- The shared per-line accumulation step (kimi.ts lines 613-619, 649-653 and
668-673): a success appends to `messages`; a failure whose raw text trims to
nonempty appends to `fallback`; everything else is dropped. -/
def jsonlAccumulate (acc : JsonlAcc M) (r : KimiJsonlParseResult M) : JsonlAcc M :=
  match r with
  | .success m => { acc with messages := acc.messages ++ [m] }
  | .failure raw _ =>
    if trimChars raw = [] then acc
    else { acc with fallback := acc.fallback ++ [raw] }

/-- Split on `'\n'`, the behaviour of JS `output.split('\n')`: always at
least one part, empty parts preserved. -/
def splitOnNl : List Char → List (List Char)
  | [] => [[]]
  | c :: rest =>
    if c = '\n' then [] :: splitOnNl rest
    else
      match splitOnNl rest with
      | [] => [[c]]
      | l :: ls => (c :: l) :: ls

/-- `KimiAgentPlugin.parseJsonlOutput` (kimi.ts lines 603-622): split the
whole output on newlines and fold the accumulation step over the lines. -/
def parseJsonlOutput (output : List Char) : JsonlAcc M :=
  (splitOnNl output).foldl (fun acc line => jsonlAccumulate acc (parseJsonlLine parseJson line)) {}

/-- Split the buffer at its first newline: `buffer.indexOf('\n')` plus the
two `slice`s of the `push` loop (kimi.ts lines 641-644). -/
def takeLine : List Char → Option (List Char × List Char)
  | [] => none
  | c :: rest =>
    if c = '\n' then some ([], rest)
    else
      match takeLine rest with
      | none => none
      | some (l, r) => some (c :: l, r)

/-- State of `createStreamingJsonlParser` (kimi.ts lines 627-681): the
partial-line buffer and the accumulated messages/fallback. -/
structure StreamingState (M : Type) where
  buffer : List Char := []
  acc : JsonlAcc M := {}

/-- The `while` loop of `push` (kimi.ts lines 641-654): repeatedly extract
the text before the first newline, parse it and accumulate, keeping the
remainder as the buffer. -/
def pushLoop (buf : List Char) (acc : JsonlAcc M) : List Char × JsonlAcc M :=
  match h : takeLine buf with
  | none => (buf, acc)
  | some lr => pushLoop lr.2 (jsonlAccumulate acc (parseJsonlLine parseJson lr.1))
termination_by buf.length
decreasing_by
  have aux : ∀ (b : List Char) (p : List Char × List Char),
      takeLine b = some p → p.2.length < b.length := by
    intro b
    induction b with
    | nil => intro p hp; simp [takeLine] at hp
    | cons c rest ih =>
      intro p hp
      by_cases hc : c = '\n'
      · simp [takeLine, hc] at hp
        simp [← hp]
      · rw [takeLine, if_neg hc] at hp
        cases hr : takeLine rest with
        | none => rw [hr] at hp; cases hp
        | some q =>
          rw [hr] at hp
          injection hp with hp1
          have := ih q hr
          rw [← hp1]
          simp
          omega
  simpa using aux buf lr h

/-- `push(chunk)` (kimi.ts lines 637-657): append the chunk to the buffer
and run the line-extraction loop. -/
def streamPush (st : StreamingState M) (chunk : List Char) : StreamingState M :=
  let r := pushLoop parseJson (st.buffer ++ chunk) st.acc
  ⟨r.1, r.2⟩

/-- `flush()` (kimi.ts lines 659-675): a buffer that trims to empty is
dropped; otherwise the whole remaining buffer is parsed as one line and
accumulated.  Either way the buffer is cleared. -/
def streamFlush (st : StreamingState M) : StreamingState M :=
  if trimChars st.buffer = [] then { st with buffer := [] }
  else ⟨[], jsonlAccumulate st.acc (parseJsonlLine parseJson st.buffer)⟩

/-- Pushing a list of chunks in order. -/
def streamPushAll (st : StreamingState M) (chunks : List (List Char)) : StreamingState M :=
  chunks.foldl (streamPush parseJson) st

/-- Proof device: the one-shot accumulation over a text, started from an
arbitrary accumulator (`parseJsonlOutput` is `jsonlProcess` from the empty
accumulator). -/
def jsonlProcess (output : List Char) (acc : JsonlAcc M) : JsonlAcc M :=
  (splitOnNl output).foldl (fun a line => jsonlAccumulate a (parseJsonlLine parseJson line)) acc

end JsonlParsers

/- ============================================================ -/
/- Helper lemmas                                                -/
/- ============================================================ -/

theorem str_append_ne_empty (a b : String) (h : a ≠ "") : a ++ b ≠ "" := by
  intro hab
  apply h
  have hd : (a ++ b).data = ("" : String).data := congrArg String.data hab
  rw [String.data_append] at hd
  have ha : a.data = [] := (List.append_eq_nil.mp hd).1
  cases a with
  | mk l =>
    simp at ha
    subst ha
    rfl

theorem runDetections_counts (base maxDelay maxRetries : Nat) (d : RateLimitDetection) :
    ∀ n, (runDetections base maxDelay maxRetries d n).2 = min n maxRetries ∧
      retryActionCount (runDetections base maxDelay maxRetries d n).1 = min n maxRetries := by
  intro n
  induction n with
  | zero => simp [runDetections, retryActionCount]
  | succ n ih =>
    obtain ⟨hcnt, hact⟩ := ih
    by_cases h : (runDetections base maxDelay maxRetries d n).2 < maxRetries
    · constructor
      · simp only [runDetections, onRateLimitDetected, h, if_pos]
        rw [hcnt] at h ⊢
        omega
      · simp only [runDetections, onRateLimitDetected, h, if_pos, retryActionCount,
          List.countP_append]
        rw [retryActionCount] at hact
        rw [hact]
        rw [hcnt] at h
        simp only [List.countP_cons, List.countP_nil, if_pos trivial]
        omega
    · constructor
      · simp only [runDetections, onRateLimitDetected, h, if_neg, ite_false]
        rw [hcnt] at h ⊢
        omega
      · simp only [runDetections, onRateLimitDetected, h, if_neg, ite_false, retryActionCount,
          List.countP_append]
        rw [retryActionCount] at hact
        rw [hact]
        rw [hcnt] at h
        norm_num
        omega

/- ============================================================ -/
/- Claim theorems                                               -/
/- ============================================================ -/

/-- C2 counterexample: the claim is self-contradictory — under its own
formula `min(base·2^(k-1), max)` the default configuration `base = 5000`,
`max = 60000` yields the sequence `[5000, 10000, 20000]`, not the
`[5000, 15000, 45000]` the claim simultaneously requires: already the delay
for attempt 2 is 10000, not 15000. -/
theorem backoff_formula_counterexample :
    [backoffDelaySpecFormula 5000 60000 1, backoffDelaySpecFormula 5000 60000 2,
      backoffDelaySpecFormula 5000 60000 3] = [5000, 10000, 20000] ∧
    backoffDelaySpecFormula 5000 60000 2 ≠ 15000 := by
  decide

/-- C2 amended: for every configured `(base, max, maxRetries)` the
retry-delay sequence of the Backoff Controller is non-decreasing, the delay
for attempt `k` equals `min(base * 3^(k-1), max)` (factor 3, as the spec's
own default sequence dictates, not the factor 2 the claim's formula says),
the default configuration `base = 5000`, `max = 60000`, `maxRetries = 3`
yields exactly the sequence `[5000, 15000, 45000]`, a 4th consecutive
rate-limit detection invokes the fallback instead of a 4th retry, and in
general exactly `min n maxRetries` retries happen over `n` detections — so
exactly `maxRetries` retry attempts are performed before the Fallback
Selector is invoked. -/
theorem backoff_retry_schedule :
    (∀ base maxDelay k, backoffDelay base maxDelay k ≤ backoffDelay base maxDelay (k + 1)) ∧
    (∀ base maxDelay k, backoffDelay base maxDelay k = min (base * 3 ^ (k - 1)) maxDelay) ∧
    ([backoffDelay 5000 60000 1, backoffDelay 5000 60000 2, backoffDelay 5000 60000 3]
      = [5000, 15000, 45000]) ∧
    (runDetections 5000 60000 3 ⟨true, none, none⟩ 4
      = ([.retryAfterWait 5000, .retryAfterWait 15000, .retryAfterWait 45000,
          .invokeFallback], 3)) ∧
    (∀ base maxDelay maxRetries d n,
      retryActionCount (runDetections base maxDelay maxRetries d n).1 = min n maxRetries) := by
  refine ⟨?_, fun _ _ _ => rfl, by decide, by decide, ?_⟩
  · intro base maxDelay k
    apply min_le_min _ le_rfl
    exact Nat.mul_le_mul_left base (Nat.pow_le_pow_right (by norm_num) (by omega))
  · intro base maxDelay maxRetries d n
    exact (runDetections_counts base maxDelay maxRetries d n).2

/-- C3: when the detector's result carries a `retryAfter` value parsed from
the agent's own output, the engine's retry waits exactly that value, not the
computed exponential-backoff value. -/
theorem retryAfter_overrides_backoff :
    ∀ (base maxDelay maxRetries retryCount v : Nat) (d : RateLimitDetection),
      d.retryAfter = some v → retryCount < maxRetries →
      (onRateLimitDetected base maxDelay maxRetries d retryCount).1 = .retryAfterWait v ∧
      retryWait base maxDelay d (retryCount + 1) = v := by
  intro base maxDelay maxRetries retryCount v d hra hlt
  constructor
  · simp [onRateLimitDetected, hlt, retryWait, hra]
  · simp [retryWait, hra]

/-- Witness for C3 at a concrete input where `retryAfter` and the computed
backoff value differ: the engine waits 1000ms, not the 5000ms backoff. -/
theorem retryAfter_overrides_backoff_witness :
    (onRateLimitDetected 5000 60000 3 ⟨true, none, some 1000⟩ 0).1
      = .retryAfterWait 1000 ∧ (1000 : Nat) ≠ backoffDelay 5000 60000 1 :=
  ⟨(retryAfter_overrides_backoff 5000 60000 3 0 1000 ⟨true, none, some 1000⟩ rfl
      (by decide)).1, by decide⟩

/-- C4 counterexample: `BeadsRustTrackerPlugin.completeTask` never returns a
no-op success — for the concrete id `rt-1` (in any call sequence, since the
method reads no state, including a second call for an already-completed
task) the result has `success = false`, not a success. -/
theorem completeTask_counterexample :
    (BeadsRustTrackerPlugin.completeTask "rt-1").success = false ∧
    (BeadsRustTrackerPlugin.completeTask "rt-1").error = some "Not implemented" :=
  ⟨rfl, rfl⟩

/-- C4 amended: `BeadsRustTrackerPlugin.completeTask` is an unimplemented
stub — every call, for every id and at every position of any call sequence
(it reads and writes no state), returns the same failure result with
`success = false` and error `Not implemented`; repeated calls are therefore
trivially idempotent, but the result is a failure, not a no-op success. -/
theorem completeTask_stub_failure :
    ∀ id : String, (BeadsRustTrackerPlugin.completeTask id).success = false ∧
      (BeadsRustTrackerPlugin.completeTask id).error = some "Not implemented" :=
  fun _ => ⟨rfl, rfl⟩

/-- C6: `KimiAgentPlugin.detect` reports `available = true` exactly when the
kimi binary is found in PATH and `--version` exits with code 0; in every
other case (not found, spawn error, non-zero or null exit code, 15-second
timeout) it reports `available = false` together with a non-empty error
string.  Both branches return a value, so the embedded `detect` is total:
it never throws. -/
theorem kimiDetect_available_iff :
    ∀ (f : FindCommandResult) (vout : VersionOutcome),
      ((kimiDetect f vout).available = true ↔
        ∃ p stdout stderr, f = .found p ∧ vout = .closed (some 0) stdout stderr) ∧
      ((kimiDetect f vout).available = false →
        ∃ e, (kimiDetect f vout).error = some e ∧ e ≠ "") := by
  intro f vout
  cases f with
  | notFound =>
    refine ⟨?_, fun _ => ⟨_, rfl, by decide⟩⟩
    simp [kimiDetect]
  | found p =>
    cases vout with
    | errEvent msg =>
      refine ⟨?_, fun _ => ⟨_, rfl, str_append_ne_empty _ _ (by decide)⟩⟩
      simp [kimiDetect, runVersion]
    | closed code stdout stderr =>
      by_cases hc : code = some 0
      · subst hc
        constructor
        · simp only [kimiDetect, runVersion, if_pos rfl]
          exact ⟨fun _ => ⟨p, stdout, stderr, rfl, rfl⟩, fun _ => rfl⟩
        · intro hav
          simp [kimiDetect, runVersion] at hav
      · constructor
        · simp only [kimiDetect, runVersion, if_neg hc]
          constructor
          · intro hav; simp at hav
          · rintro ⟨p', s', e', hp, hv⟩
            cases hv
            exact absurd rfl hc
        · intro _
          by_cases he : stderr = ""
          · refine ⟨_, ?_, str_append_ne_empty "Exited with code " (codeStr code) (by decide)⟩
            simp [kimiDetect, runVersion, hc, he]
          · refine ⟨stderr, ?_, he⟩
            simp [kimiDetect, runVersion, hc, he]
    | timedOut =>
      refine ⟨?_, fun _ => ⟨_, rfl, by decide⟩⟩
      simp [kimiDetect, runVersion]

/-- Witness for C6: concrete evaluations — the binary being present with
`--version` exiting 0 yields `available = true`, and a timeout yields
`available = false` with a non-empty error. -/
theorem kimiDetect_available_iff_witness :
    ((kimiDetect (.found "/usr/bin/kimi") (.closed (some 0) "kimi 1.2.3" "")).available = true) ∧
    (∃ e, (kimiDetect (.found "/usr/bin/kimi") .timedOut).error = some e ∧ e ≠ "") :=
  ⟨(kimiDetect_available_iff (.found "/usr/bin/kimi")
      (.closed (some 0) "kimi 1.2.3" "")).1.mpr ⟨"/usr/bin/kimi", "kimi 1.2.3", "", rfl, rfl⟩,
   (kimiDetect_available_iff (.found "/usr/bin/kimi") .timedOut).2 rfl⟩

/-- C9: after `disconnect()` — and equally after any socket `close` event,
both of which run `cleanup` — the pending-request map is empty, every
request that was pending has been rejected with a `Connection closed`
error, the subscribed flag is false and the ping timer is stopped. -/
theorem cleanup_rejects_all_pending :
    ∀ s : ClientState,
      ((disconnect s).state.pending = [] ∧ (disconnect s).state.subscribed = false ∧
        (disconnect s).state.pingActive = false ∧
        (disconnect s).state.status = .disconnected ∧
        (disconnect s).settles = s.pending.map fun i => (i, SettleKind.rejectedClosed)) ∧
      ((step s .closeEvt).state.pending = [] ∧ (step s .closeEvt).state.subscribed = false ∧
        (step s .closeEvt).state.pingActive = false ∧
        (step s .closeEvt).settles = s.pending.map fun i => (i, SettleKind.rejectedClosed)) := by
  intro s
  refine ⟨⟨rfl, rfl, rfl, rfl, rfl⟩, ?_⟩
  simp only [step]
  by_cases h : s.status = .connected <;> simp [h, cleanup]

/-- C10: calling `connect()` while the status is `connecting` or `connected`
returns immediately: the state (including the socket) is unchanged and no
event is emitted. -/
theorem connect_noop_when_active :
    ∀ s : ClientState, s.status = .connecting ∨ s.status = .connected →
      connect s = (s, []) := by
  intro s h
  simp [connect, h]

/-- Witness for C10 at a concrete mid-handshake state. -/
theorem connect_noop_when_active_witness :
    connect { status := .connecting, wsOpen := true }
      = ({ status := .connecting, wsOpen := true }, []) :=
  connect_noop_when_active { status := .connecting, wsOpen := true } (Or.inl rfl)

/-- C5: an incoming `engine_event` message whose id does not match a pending
request is delivered to the event handler exactly as an `engine_event`
client event carrying the wrapped engine event unchanged, and never as the
generic `message` event kind. -/
theorem engine_event_forwarded_not_generic :
    ∀ (s : ClientState) (m : WSMessage),
      s.subscribed = true → m.type = "engine_event" → m.id ∉ s.pending →
      (handleMessage s m).2.2 = [.engineEvent m.event] ∧
      ∀ mm : WSMessage, RemoteClientEvent.message mm ∉ (handleMessage s m).2.2 := by
  intro s m _ hty hid
  have h1 : (handleMessage s m).2.2 = [.engineEvent m.event] := by
    simp [handleMessage, hid, hty]
  refine ⟨h1, ?_⟩
  intro mm
  rw [h1]
  simp

/-- Witness for C5: a concrete subscribed state and a concrete engine-event
message. -/
theorem engine_event_forwarded_not_generic_witness :
    (handleMessage { status := .connected, wsOpen := true, subscribed := true }
        { type := "engine_event", id := "e1", event := "iteration_started" }).2.2
      = [.engineEvent "iteration_started"] :=
  (engine_event_forwarded_not_generic
    { status := .connected, wsOpen := true, subscribed := true }
    { type := "engine_event", id := "e1", event := "iteration_started" }
    rfl rfl (by decide)).1

/-- Per-step auth transmissions: only the socket `open` event (whose handler
is `authenticate`) transmits the auth message. -/
theorem authCount_step (s : ClientState) (e : CEvent) :
    authCount (step s e).txs = openCount [e] := by
  cases e with
  | openEvt => rfl
  | recv m => rfl
  | closeEvt =>
    simp only [step]
    split <;> rfl
  | errorEvt => rfl
  | callSend m =>
    simp only [step]
    cases hsend : send s m with
    | none => rfl
    | some tx0 =>
      rw [send] at hsend
      split at hsend
      · injection hsend with h0
        subst h0
        rfl
      · cases hsend
  | callRequest id m =>
    simp only [step]
    cases hreq : request s id m with
    | error e0 => rfl
    | ok r =>
      rw [request] at hreq
      split at hreq
      · cases hreq
      · injection hreq with h0
        subst h0
        rfl
  | timeoutFires id =>
    simp only [step]
    split <;> rfl
  | callDisconnect => rfl
  | callConnect => rfl
  | pingTick =>
    simp only [step]
    split <;> rfl

theorem runTxs_authCount : ∀ (t : List CEvent) (s : ClientState),
    authCount (runTxs s t) = openCount t := by
  intro t
  induction t with
  | nil => intro s; rfl
  | cons e es ih =>
    intro s
    have h1 : authCount (runTxs s (e :: es))
        = authCount (step s e).txs + authCount (runTxs (step s e).state es) := by
      simp [runTxs, authCount, List.countP_append]
    rw [h1, authCount_step, ih]
    simp [openCount, List.countP_cons]
    omega

/-- Per-step guard: any transmission other than the auth message happens
only from a state whose status is `connected`. -/
theorem nonauth_tx_needs_connected :
    ∀ (s : ClientState) (e : CEvent) (tx : Tx),
      tx ∈ (step s e).txs → tx ≠ .auth → s.status = .connected := by
  intro s e tx hmem hne
  cases e with
  | openEvt =>
    simp [step] at hmem
    exact absurd hmem hne
  | recv m => simp [step] at hmem
  | closeEvt =>
    simp only [step] at hmem
    rcases hs : s.status <;> rw [hs] at hmem <;> simp at hmem
  | errorEvt => simp [step] at hmem
  | callSend m =>
    simp only [step] at hmem
    cases hsend : send s m with
    | none => rw [hsend] at hmem; simp at hmem
    | some tx0 =>
      rw [hsend] at hmem
      rw [send] at hsend
      split at hsend
      · next hcond => exact hcond.2
      · simp at hsend
  | callRequest id m =>
    simp only [step] at hmem
    cases hreq : request s id m with
    | error err => rw [hreq] at hmem; simp at hmem
    | ok r =>
      rw [hreq] at hmem
      rw [request] at hreq
      split at hreq
      · simp at hreq
      · next hcond =>
        push_neg at hcond
        exact hcond.1
  | timeoutFires id =>
    simp only [step] at hmem
    split at hmem <;> simp at hmem
  | callDisconnect => simp [step, disconnect] at hmem
  | callConnect =>
    simp only [step] at hmem
    simp at hmem
  | pingTick =>
    simp only [step] at hmem
    split at hmem
    · next hcond => exact hcond.1
    · simp at hmem

/-- C7: in any client trace the number of auth transmissions equals the
number of socket `open` events — the socket of one connection attempt opens
at most once, so exactly one auth message is transmitted per attempt — and
no other message is ever transmitted from a state that is not yet
`connected`: every non-auth transmission requires status `connected`,
`send()` is a no-op whenever the status is not `connected`, and `request()`
fails with a `Not connected` error there. -/
theorem single_auth_no_tx_before_connected :
    (∀ (s : ClientState) (t : List CEvent), authCount (runTxs s t) = openCount t) ∧
    (∀ (s : ClientState) (e : CEvent) (tx : Tx),
      tx ∈ (step s e).txs → tx ≠ .auth → s.status = .connected) ∧
    (∀ (s : ClientState) (m : WSMessage), s.status ≠ .connected → send s m = none) ∧
    (∀ (s : ClientState) (id : String) (m : WSMessage),
      s.status ≠ .connected → request s id m = .error "Not connected") := by
  refine ⟨fun s t => runTxs_authCount t s, nonauth_tx_needs_connected, ?_, ?_⟩
  · intro s m h
    simp [send, h]
  · intro s id m h
    simp [request, h]

/-- Witness for C7: concrete applications — a `send` while the status is
`connected` transmits (so the non-auth-transmission conjunct applies with
its hypotheses discharged), and in the `connecting` state `send` is a no-op
and `request` raises `Not connected`. -/
theorem single_auth_no_tx_before_connected_witness :
    ({ status := .connected, wsOpen := true } : ClientState).status = .connected ∧
    send { status := .connecting, wsOpen := true } { type := "get_state", id := "" } = none ∧
    request { status := .connecting, wsOpen := true } "rq1" { type := "get_state", id := "" }
      = .error "Not connected" :=
  ⟨single_auth_no_tx_before_connected.2.1 { status := .connected, wsOpen := true }
      (.callSend { type := "get_state", id := "" })
      (.payload { type := "get_state", id := "" }) (by decide) (by decide),
   single_auth_no_tx_before_connected.2.2.1 { status := .connecting, wsOpen := true }
      { type := "get_state", id := "" } (by decide),
   single_auth_no_tx_before_connected.2.2.2 { status := .connecting, wsOpen := true }
      "rq1" { type := "get_state", id := "" } (by decide)⟩

/-- A duplicate-free id list counts a given id at most once. -/
theorem countP_id_of_nodup (l : List String) (id : String) (h : l.Nodup) :
    (l.countP fun i => decide (i = id)) = if id ∈ l then 1 else 0 := by
  induction l with
  | nil => rfl
  | cons a l ih =>
    rw [List.nodup_cons] at h
    rw [List.countP_cons, ih h.2]
    by_cases ha : a = id
    · subst ha
      simp [h.1]
    · simp [ha, Ne.symm ha]

theorem settleCount_append (id : String) (l1 l2 : List Settlement) :
    settleCount id (l1 ++ l2) = settleCount id l1 + settleCount id l2 := by
  simp [settleCount, List.countP_append]

theorem settleCount_map_closed (l : List String) (id : String) :
    settleCount id (l.map fun i => (i, SettleKind.rejectedClosed))
      = l.countP fun i => decide (i = id) := by
  simp only [settleCount, List.countP_map]
  rfl

theorem nodup_pendingInsert (id : String) (l : List String) (h : l.Nodup) :
    (pendingInsert id l).Nodup := by
  rw [pendingInsert]
  split
  · exact h
  · next hn => exact List.nodup_cons.mpr ⟨hn, h⟩

theorem mem_pendingInsert (a id : String) (l : List String) :
    a ∈ pendingInsert id l ↔ a = id ∨ a ∈ l := by
  rw [pendingInsert]
  split
  · next hmem =>
    constructor
    · exact Or.inr
    · rintro (rfl | h)
      · exact hmem
      · exact h
  · simp

/-- Indicator of membership in the pending map. -/
def memInd (id : String) (l : List String) : Nat := if id ∈ l then 1 else 0

/-- One-step settlement accounting: a step settles a given id at most once,
it can do so only when the id is pending beforehand (or, for the
registration step itself, when the event is a `request()` generating the
id), and the id leaves the pending map when settled; duplicate-freeness of
the map's key list is preserved. -/
theorem step_settle_bound (id : String) (s : ClientState) (e : CEvent)
    (h : s.pending.Nodup) :
    settleCount id (step s e).settles + memInd id (step s e).state.pending ≤
      (if isReqFor id e = true then 1 else 0) + memInd id s.pending ∧
    (step s e).state.pending.Nodup := by
  cases e with
  | openEvt => exact ⟨le_refl _, h⟩
  | recv m =>
    simp only [step]
    by_cases hmem : m.id ∈ s.pending
    · rw [handleMessage, if_pos hmem]
      constructor
      · by_cases hid : m.id = id
        · subst hid
          have hne : m.id ∉ s.pending.erase m.id := h.not_mem_erase
          simp [settleCount, memInd, hmem, hne, isReqFor]
        · have : id ∈ s.pending.erase m.id ↔ id ∈ s.pending :=
            List.mem_erase_of_ne (Ne.symm hid)
          simp [settleCount, memInd, this, isReqFor, Ne.symm hid, hid]
      · exact h.erase m.id
    · rw [handleMessage, if_neg hmem]
      by_cases hty : m.type = "auth_response"
      · rw [if_pos hty]
        by_cases hsucc : m.success = true
        · simp only [hsucc, if_pos]
          exact ⟨le_refl _, h⟩
        · simp only [hsucc]
          rw [if_neg (by simp [hsucc])]
          constructor
          · simp only [cleanup]
            rw [settleCount_map_closed, countP_id_of_nodup s.pending id h]
            simp [memInd, isReqFor]
          · exact List.nodup_nil
      · rw [if_neg hty]
        split
        · exact ⟨le_refl _, h⟩
        · split
          · exact ⟨le_refl _, h⟩
          · exact ⟨le_refl _, h⟩
  | closeEvt =>
    simp only [step]
    have hcore : settleCount id (cleanup s).2 + memInd id ([] : List String) ≤
        (if isReqFor id .closeEvt = true then 1 else 0) + memInd id s.pending := by
      simp only [cleanup]
      rw [settleCount_map_closed, countP_id_of_nodup s.pending id h]
      simp [memInd, isReqFor]
    split
    · exact ⟨hcore, List.nodup_nil⟩
    · exact ⟨hcore, List.nodup_nil⟩
  | errorEvt => exact ⟨le_refl _, h⟩
  | callSend m =>
    simp only [step]
    cases hsend : send s m with
    | none => exact ⟨le_refl _, h⟩
    | some tx0 => exact ⟨le_refl _, h⟩
  | callRequest rid m =>
    simp only [step]
    cases hreq : request s rid m with
    | error e0 =>
      refine ⟨?_, h⟩
      simp [settleCount, isReqFor]
    | ok r =>
      rw [request] at hreq
      split at hreq
      · cases hreq
      · injection hreq with h0
        subst h0
        constructor
        · by_cases hid : rid = id
          · have hmi : memInd id (pendingInsert rid s.pending) ≤ 1 := by
              rw [memInd]
              split <;> omega
            have hreqf : (if isReqFor id (CEvent.callRequest rid m) = true then 1 else 0) = 1 := by
              simp [isReqFor, hid]
            rw [hreqf]
            simp only [settleCount, List.countP_nil]
            omega
          · have hins : id ∈ pendingInsert rid s.pending ↔ id ∈ s.pending := by
              rw [mem_pendingInsert]
              simp [Ne.symm hid]
            simp [settleCount, memInd, hins, isReqFor, hid]
        · exact nodup_pendingInsert rid s.pending h
  | timeoutFires tid =>
    simp only [step]
    by_cases hmem : tid ∈ s.pending
    · rw [if_pos hmem]
      constructor
      · by_cases hid : tid = id
        · subst hid
          have hne : tid ∉ s.pending.erase tid := h.not_mem_erase
          simp [settleCount, memInd, hmem, hne, isReqFor]
        · have : id ∈ s.pending.erase tid ↔ id ∈ s.pending :=
            List.mem_erase_of_ne (Ne.symm hid)
          simp [settleCount, memInd, this, isReqFor, Ne.symm hid, hid]
      · exact h.erase tid
    · rw [if_neg hmem]
      exact ⟨le_refl _, h⟩
  | callDisconnect =>
    simp only [step, disconnect]
    constructor
    · simp only [cleanup]
      rw [settleCount_map_closed, countP_id_of_nodup s.pending id h]
      simp [memInd, isReqFor]
    · exact List.nodup_nil
  | callConnect =>
    simp only [step, connect]
    split
    · exact ⟨le_refl _, h⟩
    · exact ⟨le_refl _, h⟩
  | pingTick =>
    simp only [step]
    split
    · exact ⟨le_refl _, h⟩
    · exact ⟨le_refl _, h⟩

/-- Trace-level settlement accounting. -/
theorem runSettles_bound (id : String) : ∀ (t : List CEvent) (s : ClientState),
    s.pending.Nodup →
    settleCount id (runSettles s t) ≤ reqCount id t + memInd id s.pending := by
  intro t
  induction t with
  | nil =>
    intro s _
    simp [runSettles, settleCount, reqCount]
  | cons e es ih =>
    intro s h
    have hb := step_settle_bound id s e h
    have hrest := ih (step s e).state hb.2
    have h1 : settleCount id (runSettles s (e :: es))
        = settleCount id (step s e).settles + settleCount id (runSettles (step s e).state es) := by
      simp [runSettles, settleCount_append]
    have h2 : reqCount id (e :: es) = reqCount id es + (if isReqFor id e = true then 1 else 0) := by
      simp [reqCount, List.countP_cons]
    rw [h1, h2]
    omega

/-- C1: a request promise settles at most once, and only through its three
settlement paths (resolution by the first correlated message, timeout
rejection, connection-close rejection).  Concretely: (a) along any client
trace in which a given freshly generated id is registered by at most one
`request()` call, at most one settlement for that id occurs; (b) a received
message whose id is pending resolves exactly that request with that very
message and removes the id from the pending map; (c) a received message
whose id is not pending — in particular any later message reusing an
already-settled id — settles nothing under that id.  Settlement that the
promise is eventually reached is provided by the 30-second request timer,
modelled as the `timeoutFires` event, which can fire only while the entry
is still pending. -/
theorem request_promise_settles_once :
    (∀ (s : ClientState) (t : List CEvent) (id : String),
      s.pending.Nodup → id ∉ s.pending → reqCount id t ≤ 1 →
      settleCount id (runSettles s t) ≤ 1) ∧
    (∀ (s : ClientState) (m : WSMessage),
      s.pending.Nodup → m.id ∈ s.pending →
      (handleMessage s m).2.1 = [(m.id, SettleKind.resolved m)] ∧
      m.id ∉ (handleMessage s m).1.pending) ∧
    (∀ (s : ClientState) (m : WSMessage),
      m.id ∉ s.pending → settleCount m.id (handleMessage s m).2.1 = 0) := by
  refine ⟨?_, ?_, ?_⟩
  · intro s t id hnd hnot hreq
    have hb := runSettles_bound id t s hnd
    rw [memInd, if_neg hnot] at hb
    omega
  · intro s m hnd hmem
    rw [handleMessage, if_pos hmem]
    exact ⟨rfl, hnd.not_mem_erase⟩
  · intro s m hmem
    rw [handleMessage, if_neg hmem]
    by_cases hty : m.type = "auth_response"
    · rw [if_pos hty]
      by_cases hsucc : m.success = true
      · simp [hsucc, settleCount]
      · simp only [hsucc]
        rw [if_neg (by simp [hsucc])]
        simp only [cleanup, settleCount_map_closed]
        exact List.countP_eq_zero.mpr fun a ha => by
          simp only [decide_eq_true_eq]
          intro hai
          exact hmem (hai ▸ ha)
    · rw [if_neg hty]
      split
      · rfl
      · split
        · rfl
        · rfl

/-- Witness for C1: a concrete connected state and trace — one `request()`
registering id `a`, then two copies of the correlated response; the first
resolves the request, the second settles nothing; plus concrete instances
of the resolution and non-resettlement conjuncts. -/
theorem request_promise_settles_once_witness :
    settleCount "a" (runSettles { status := .connected, wsOpen := true }
        [.callRequest "a" { type := "get_state", id := "" },
         .recv { type := "state_response", id := "a" },
         .recv { type := "state_response", id := "a" }]) ≤ 1 ∧
    ((handleMessage { status := .connected, wsOpen := true, pending := ["a"] }
        { type := "state_response", id := "a" }).2.1
      = [("a", SettleKind.resolved { type := "state_response", id := "a" })] ∧
      "a" ∉ (handleMessage { status := .connected, wsOpen := true, pending := ["a"] }
        { type := "state_response", id := "a" }).1.pending) ∧
    settleCount "a" (handleMessage { status := .connected, wsOpen := true }
        { type := "state_response", id := "a" }).2.1 = 0 :=
  ⟨request_promise_settles_once.1 { status := .connected, wsOpen := true }
      [.callRequest "a" { type := "get_state", id := "" },
       .recv { type := "state_response", id := "a" },
       .recv { type := "state_response", id := "a" }] "a"
      (by decide) (by decide) (by decide),
   request_promise_settles_once.2.1 { status := .connected, wsOpen := true, pending := ["a"] }
      { type := "state_response", id := "a" } (by decide) (by decide),
   request_promise_settles_once.2.2 { status := .connected, wsOpen := true }
      { type := "state_response", id := "a" } (by decide)⟩

/- Lemmas for the streaming/one-shot JSONL parser equivalence (C8). -/

theorem takeLine_length : ∀ {buf l r : List Char},
    takeLine buf = some (l, r) → r.length < buf.length := by
  intro buf
  induction buf with
  | nil => intro l r h; simp [takeLine] at h
  | cons c rest ih =>
    intro l r h
    by_cases hc : c = '\n'
    · simp [takeLine, hc] at h
      simp [← h.2]
    · rw [takeLine, if_neg hc] at h
      cases hr : takeLine rest with
      | none => rw [hr] at h; cases h
      | some q =>
        rw [hr] at h
        obtain ⟨q1, q2⟩ := q
        injection h with h1
        rw [Prod.mk.injEq] at h1
        have := ih (l := q1) (r := q2) hr
        rw [← h1.2]
        simp
        omega

theorem takeLine_none_no_nl : ∀ {buf : List Char}, takeLine buf = none → '\n' ∉ buf := by
  intro buf
  induction buf with
  | nil => intro _; simp
  | cons c rest ih =>
    intro h
    by_cases hc : c = '\n'
    · rw [takeLine, if_pos hc] at h; cases h
    · rw [takeLine, if_neg hc] at h
      cases hr : takeLine rest with
      | none =>
        intro hmem
        rcases List.mem_cons.mp hmem with h1 | h2
        · exact hc h1.symm
        · exact ih hr h2
      | some q => rw [hr] at h; cases h

theorem splitOnNl_of_no_nl : ∀ {cs : List Char}, '\n' ∉ cs → splitOnNl cs = [cs] := by
  intro cs
  induction cs with
  | nil => intro _; rfl
  | cons c rest ih =>
    intro h
    have hc : ¬ c = '\n' := fun hc => h (hc ▸ List.mem_cons_self c rest)
    have h2 : '\n' ∉ rest := fun hm => h (List.mem_cons_of_mem c hm)
    rw [splitOnNl, if_neg hc, ih h2]

theorem takeLine_append : ∀ {buf l r : List Char}, takeLine buf = some (l, r) →
    ∀ t, takeLine (buf ++ t) = some (l, r ++ t) := by
  intro buf
  induction buf with
  | nil => intro l r h t; simp [takeLine] at h
  | cons c rest ih =>
    intro l r h t
    by_cases hc : c = '\n'
    · simp only [takeLine, if_pos hc, Option.some.injEq, Prod.mk.injEq] at h
      rw [← h.1, ← h.2]
      simp [takeLine, hc]
    · rw [takeLine, if_neg hc] at h
      cases hr : takeLine rest with
      | none => rw [hr] at h; cases h
      | some q =>
        rw [hr] at h
        obtain ⟨q1, q2⟩ := q
        injection h with h1
        rw [Prod.mk.injEq] at h1
        rw [← h1.1, ← h1.2]
        rw [List.cons_append, takeLine, if_neg hc, ih hr t]

theorem splitOnNl_of_takeLine : ∀ {buf l r : List Char}, takeLine buf = some (l, r) →
    splitOnNl buf = l :: splitOnNl r := by
  intro buf
  induction buf with
  | nil => intro l r h; simp [takeLine] at h
  | cons c rest ih =>
    intro l r h
    by_cases hc : c = '\n'
    · simp only [takeLine, if_pos hc, Option.some.injEq, Prod.mk.injEq] at h
      rw [← h.1, ← h.2]
      rw [splitOnNl, if_pos hc]
    · rw [takeLine, if_neg hc] at h
      cases hr : takeLine rest with
      | none => rw [hr] at h; cases h
      | some q =>
        rw [hr] at h
        obtain ⟨q1, q2⟩ := q
        injection h with h1
        rw [Prod.mk.injEq] at h1
        rw [← h1.1, ← h1.2]
        rw [splitOnNl, if_neg hc, ih hr]

theorem pushLoop_eq_none {M : Type} (pj : List Char → Option M) (buf : List Char)
    (acc : JsonlAcc M) (h : takeLine buf = none) : pushLoop pj buf acc = (buf, acc) := by
  unfold pushLoop
  split
  · rfl
  · next lr heq => rw [h] at heq; cases heq

theorem pushLoop_eq_some {M : Type} (pj : List Char → Option M) (buf : List Char)
    (acc : JsonlAcc M) (l r : List Char) (h : takeLine buf = some (l, r)) :
    pushLoop pj buf acc = pushLoop pj r (jsonlAccumulate acc (parseJsonlLine pj l)) := by
  conv_lhs => unfold pushLoop
  split
  · next heq => rw [h] at heq; cases heq
  · next lr heq =>
    rw [h] at heq
    injection heq with h1
    rw [← h1]

theorem pushLoop_spec {M : Type} (pj : List Char → Option M) :
    ∀ (n : Nat) (buf : List Char), buf.length ≤ n → ∀ (acc : JsonlAcc M) (t : List Char),
      jsonlProcess pj ((pushLoop pj buf acc).1 ++ t) (pushLoop pj buf acc).2
        = jsonlProcess pj (buf ++ t) acc ∧
      '\n' ∉ (pushLoop pj buf acc).1 := by
  intro n
  induction n with
  | zero =>
    intro buf hlen acc t
    have hb : buf = [] := List.length_eq_zero.mp (Nat.le_zero.mp hlen)
    subst hb
    rw [pushLoop_eq_none pj [] acc rfl]
    exact ⟨rfl, by simp⟩
  | succ n ih =>
    intro buf hlen acc t
    cases htl : takeLine buf with
    | none =>
      rw [pushLoop_eq_none pj buf acc htl]
      exact ⟨rfl, takeLine_none_no_nl htl⟩
    | some lr =>
      obtain ⟨l, r⟩ := lr
      rw [pushLoop_eq_some pj buf acc l r htl]
      have hlt : r.length < buf.length := takeLine_length htl
      have hle : r.length ≤ n := by omega
      have hsp := ih r hle (jsonlAccumulate acc (parseJsonlLine pj l)) t
      refine ⟨?_, hsp.2⟩
      rw [hsp.1]
      have hta := takeLine_append htl t
      have hsplit := splitOnNl_of_takeLine hta
      simp only [jsonlProcess, hsplit, List.foldl_cons]

theorem streamPush_spec {M : Type} (pj : List Char → Option M) (st : StreamingState M)
    (chunk t : List Char) :
    jsonlProcess pj ((streamPush pj st chunk).buffer ++ t) (streamPush pj st chunk).acc
      = jsonlProcess pj (st.buffer ++ chunk ++ t) st.acc ∧
    '\n' ∉ (streamPush pj st chunk).buffer := by
  have h := pushLoop_spec pj (st.buffer ++ chunk).length (st.buffer ++ chunk) le_rfl st.acc t
  simpa [streamPush] using h

theorem streamPushAll_spec {M : Type} (pj : List Char → Option M) :
    ∀ (chunks : List (List Char)) (st : StreamingState M) (t : List Char),
      jsonlProcess pj ((streamPushAll pj st chunks).buffer ++ t)
          (streamPushAll pj st chunks).acc
        = jsonlProcess pj (st.buffer ++ chunks.flatten ++ t) st.acc ∧
      ('\n' ∉ st.buffer → '\n' ∉ (streamPushAll pj st chunks).buffer) := by
  intro chunks
  induction chunks with
  | nil =>
    intro st t
    constructor
    · simp [streamPushAll]
    · intro h
      simpa [streamPushAll] using h
  | cons c cs ih =>
    intro st t
    have hfold : streamPushAll pj st (c :: cs) = streamPushAll pj (streamPush pj st c) cs := rfl
    have hstep := streamPush_spec pj st c (cs.flatten ++ t)
    have hih := ih (streamPush pj st c) t
    constructor
    · rw [hfold]
      have h1 := hih.1
      have h2 := hstep.1
      simp only [List.append_assoc] at h1 h2 ⊢
      rw [h1, h2]
      simp [List.append_assoc]
    · intro _
      rw [hfold]
      exact hih.2 hstep.2

theorem streamFlush_acc {M : Type} (pj : List Char → Option M) (st : StreamingState M) :
    (streamFlush pj st).acc = jsonlAccumulate st.acc (parseJsonlLine pj st.buffer) := by
  rw [streamFlush]
  split
  · next h => simp [parseJsonlLine, jsonlAccumulate, h]
  · rfl

/-- C8: the streaming, chunk-buffered JSONL parser is equivalent to the
one-shot parser.  For every output text and every partition of it into
consecutive chunks — wherever the chunk boundaries fall, inside a JSON line
or not, with or without a trailing newline — pushing the chunks in order and
then flushing yields exactly the `(messages, fallback)` state that
`parseJsonlOutput` computes on the concatenated text.  The JSON-parse step
(`JSON.parse` plus the deterministic field extraction) is the same oracle
`parseJson` on both sides. -/
theorem streaming_parser_equiv_oneshot {M : Type} (parseJson : List Char → Option M)
    (chunks : List (List Char)) :
    (streamFlush parseJson (streamPushAll parseJson {} chunks)).acc
      = parseJsonlOutput parseJson chunks.flatten := by
  have hall := streamPushAll_spec parseJson chunks {} []
  have hnl : '\n' ∉ (streamPushAll parseJson {} chunks).buffer := hall.2 (by simp)
  have h1 := hall.1
  simp only [List.append_nil, List.nil_append] at h1
  rw [streamFlush_acc]
  have hsingle : splitOnNl (streamPushAll parseJson {} chunks).buffer
      = [(streamPushAll parseJson {} chunks).buffer] := splitOnNl_of_no_nl hnl
  have h2 : jsonlAccumulate (streamPushAll parseJson {} chunks).acc
      (parseJsonlLine parseJson (streamPushAll parseJson {} chunks).buffer)
      = jsonlProcess parseJson (streamPushAll parseJson {} chunks).buffer
          (streamPushAll parseJson {} chunks).acc := by
    simp only [jsonlProcess, hsingle, List.foldl_cons, List.foldl_nil]
  rw [h2, h1]
  rfl
